import Mathlib

/-!
# Verification of the ThreadPool implementation

A shallow embedding of the C++ `ThreadPool` class (header `ThreadPool.h`,
full version: task counter `task_count_`, `drain()`, numeric-priority
constructor) together with proofs of the specified properties.

The concurrent engine (worker loop, `enqueue`, destructor, `drain`) is
embedded as a labelled transition system: every mutex-protected critical
section of the source is one atomic step, and actions the source performs
without holding `queue_mutex` are separate steps that may interleave freely.
The platform-specific affinity/priority helpers are embedded as pure
functions over the scheduling parameters they manipulate.
-/

namespace ThreadPoolModel

/-- The `enum class Priority` of the header: LOW, NORMAL, HIGH, REALTIME. -/
inductive Priority
  | LOW
  | NORMAL
  | HIGH
  | REALTIME
deriving DecidableEq, Repr

/-- Linux scheduling policy constant `SCHED_OTHER`. -/
def SCHED_OTHER : Nat := 0

/-- Linux scheduling policy constant `SCHED_FIFO`. -/
def SCHED_FIFO : Nat := 1

/-- Linux scheduling policy constant `SCHED_RR`. -/
def SCHED_RR : Nat := 2

/-- The pair (scheduling policy, `sched_param.sched_priority`) that
`pthread_getschedparam` reads and `pthread_setschedparam` writes. -/
structure SchedParam where
  policy : Nat
  sched_priority : Int
deriving DecidableEq, Repr

/-- Linux branch of `ThreadPool::set_thread_priority(std::thread&, Priority)`
(source lines 223-256).  `prioMin`/`prioMax` stand for
`sched_get_priority_min`/`sched_get_priority_max`; `cur` is the pair read by
`pthread_getschedparam`; the result is the pair passed to
`pthread_setschedparam`. -/
def set_thread_priority_linux (prioMin prioMax : Nat → Int)
    (cur : SchedParam) (p : Priority) : SchedParam :=
  match p with
  | .LOW => { cur with sched_priority := prioMin SCHED_OTHER }
  | .NORMAL => cur
  | .HIGH =>
      { policy := SCHED_RR,
        sched_priority := (prioMin SCHED_RR + prioMax SCHED_RR) / 2 }
  | .REALTIME =>
      { policy := SCHED_FIFO, sched_priority := prioMax SCHED_FIFO }

/-- Windows constant `THREAD_PRIORITY_BELOW_NORMAL`. -/
def THREAD_PRIORITY_BELOW_NORMAL : Int := -1

/-- Windows constant `THREAD_PRIORITY_NORMAL`. -/
def THREAD_PRIORITY_NORMAL : Int := 0

/-- Windows constant `THREAD_PRIORITY_ABOVE_NORMAL`. -/
def THREAD_PRIORITY_ABOVE_NORMAL : Int := 1

/-- Windows constant `THREAD_PRIORITY_TIME_CRITICAL`. -/
def THREAD_PRIORITY_TIME_CRITICAL : Int := 15

/-- Windows branch of `ThreadPool::set_thread_priority(std::thread&, Priority)`
(source lines 211-221): the value handed to `SetThreadPriority`. -/
def set_thread_priority_win (p : Priority) : Int :=
  match p with
  | .LOW => THREAD_PRIORITY_BELOW_NORMAL
  | .NORMAL => THREAD_PRIORITY_NORMAL
  | .HIGH => THREAD_PRIORITY_ABOVE_NORMAL
  | .REALTIME => THREAD_PRIORITY_TIME_CRITICAL

/-- Whether a Linux scheduling policy is a real-time class. -/
def isRealtimeClass (policy : Nat) : Bool :=
  policy == SCHED_RR || policy == SCHED_FIFO

/-- Observable outcome of the numeric-priority setter: either the scheduling
call was performed with the given policy and priority, or only a diagnostic
was printed and the thread keeps its default scheduling. -/
inductive NumPrioResult
  | applied (policy : Nat) (prio : Int)
  | diagnostic (msg : String)
deriving DecidableEq, Repr

/-- Linux branch of `ThreadPool::set_thread_priority(std::thread&, int)`
(source lines 303-314): values in `1..99` are handed to
`pthread_setschedparam` under `SCHED_RR`; anything else only prints a
diagnostic on `std::cerr`. -/
def set_thread_priority_num_linux (custom_priority : Int) : NumPrioResult :=
  if 1 ≤ custom_priority ∧ custom_priority ≤ 99 then
    .applied SCHED_RR custom_priority
  else
    .diagnostic "Linux: Invalid priority value (range 1~99)"

/-- Observable outcome of the Windows numeric-priority setter. -/
inductive WinNumPrioResult
  | applied (prio : Int)
  | diagnostic (msg : String)
deriving DecidableEq, Repr

/-- Windows branch of `ThreadPool::set_thread_priority(std::thread&, int)`
(source lines 293-302): values in `-2..15` are handed to
`SetThreadPriority`; anything else only prints a diagnostic. -/
def set_thread_priority_num_win (custom_priority : Int) : WinNumPrioResult :=
  if -2 ≤ custom_priority ∧ custom_priority ≤ 15 then
    .applied custom_priority
  else
    .diagnostic "Windows: Invalid priority value (range -2~15)"

/-- The affinity decision taken at the top of each worker lambda (source
lines 120-125): `none` when `cpu_affinity_` is empty (no
`set_thread_affinity` call at all), otherwise the core
`cpu_affinity_[i % cpu_affinity_.size()]` passed to `set_thread_affinity`. -/
def workerAffinityCore (cpu_affinity : List Int) (i : Nat) : Option Int :=
  if cpu_affinity.isEmpty then none
  else some (cpu_affinity.getD (i % cpu_affinity.length) 0)

/-! ## The pool engine as a labelled transition system

Units of work are identified by their enqueue sequence number (0, 1, 2, …).
Each mutex-protected critical section of the source is one atomic step:

* the body of `enqueue`'s locked block (lines 272-285): reject when `stop`,
  otherwise push the wrapper and increment `task_count_`;
* the worker loop's locked block (lines 134-141): either retire
  (`stop && tasks.empty()`) or pop the queue head;
* the destructor's locked block (lines 321-324): set `stop`;
* `drain`'s condition wait (lines 189-191): return once `task_count_ == 0`.

Running the popped wrapper happens outside the lock (line 142); the wrapper
(lines 278-283) invokes the packaged task — which captures any exception of
the user callable into the future instead of re-throwing — then decrements
`task_count_`.  This whole wrapper run is the `finish` step.
-/

/-- Result of running one unit of work: `std::packaged_task` stores either
the callable's return value or the exception it raised; neither escapes the
worker thread. -/
inductive Outcome
  | value (v : Int)
  | failure (e : String)
deriving DecidableEq, Repr

/-- Where one worker thread is in its lambda (source lines 118-144). -/
inductive WStatus
  | start
  | idle
  | running (id : Nat)
  | retired
deriving DecidableEq, Repr

/-- The priority argument the pool was constructed with: the enum overload
(lines 111-146) or the numeric overload (lines 149-184). -/
inductive PrioSpec
  | tier (p : Priority)
  | raw (v : Int)
deriving DecidableEq, Repr

/-- The priority-setting call a worker performs at startup. -/
inductive PrioEffect
  | tierSet (p : Priority)
  | rawApplied (policy : Nat) (prio : Int)
  | rawDiagnostic (msg : String)
deriving DecidableEq, Repr

/-- The priority effect of one worker's startup, from the stored spec
(line 128 resp. line 166). -/
def prioEffect (spec : PrioSpec) : PrioEffect :=
  match spec with
  | .tier p => .tierSet p
  | .raw v =>
      match set_thread_priority_num_linux v with
      | .applied pol prio => .rawApplied pol prio
      | .diagnostic msg => .rawDiagnostic msg

/-- Global state of one `ThreadPool` object plus the execution history the
specification talks about. `tasks`, `taskCount`, `stop` and `workers` mirror
the C++ members; `nextId` counts enqueues; `popped`, `finished`, `results`
and `bindLog` record, in order, which units were dequeued, which wrapper runs
completed (with their captured outcome), and which affinity/priority calls
each worker made at startup. -/
structure PoolState where
  affinity : List Int
  prioSpec : PrioSpec
  stop : Bool
  tasks : List Nat
  taskCount : Nat
  nextId : Nat
  popped : List Nat
  finished : List Nat
  results : List (Nat × Outcome)
  bindLog : List (Nat × Option Int × PrioEffect)
  workers : List WStatus
deriving DecidableEq, Repr

/-- The state after the constructor body: `stop = false`, empty queue,
`task_count_ = 0`, `n` worker threads spawned, none of which has bound its
affinity/priority yet. -/
def initState (n : Nat) (aff : List Int) (spec : PrioSpec) : PoolState :=
  { affinity := aff
    prioSpec := spec
    stop := false
    tasks := []
    taskCount := 0
    nextId := 0
    popped := []
    finished := []
    results := []
    bindLog := []
    workers := List.replicate n .start }

/-- The locked block of `ThreadPool::enqueue` (source lines 271-285): throw
`std::runtime_error("enqueue on stopped ThreadPool")` when `stop` is set —
before touching the queue or the counter — otherwise push the wrapper at the
tail and increment `task_count_`.  Returns the submission outcome together
with the resulting state. -/
def enqueue (s : PoolState) : Except String Unit × PoolState :=
  if s.stop then
    (.error "enqueue on stopped ThreadPool", s)
  else
    (.ok (),
      { s with
        tasks := s.tasks ++ [s.nextId]
        taskCount := s.taskCount + 1
        nextId := s.nextId + 1 })

/-- The predicate `drain` waits on (source line 191): `task_count_ == 0`. -/
def drainPred (s : PoolState) : Bool :=
  s.taskCount == 0

/-- Labels of the atomic steps. -/
inductive Label
  | bindStep (i : Nat)
  | popStep (i : Nat)
  | finishStep (i : Nat) (o : Outcome)
  | retireStep (i : Nat)
  | enqStep
  | stopStep
  | drainRet
deriving DecidableEq, Repr

/-- One atomic step of the pool.  Guards encode when the source action can
run; blocking is modelled by a step simply not being enabled. -/
inductive Step : Label → PoolState → PoolState → Prop
  | bind {s : PoolState} {i : Nat} :
      s.workers.get? i = some .start →
      Step (.bindStep i) s
        { s with
          workers := s.workers.set i .idle
          bindLog :=
            s.bindLog ++ [(i, workerAffinityCore s.affinity i, prioEffect s.prioSpec)] }
  | pop {s : PoolState} {i t : Nat} {rest : List Nat} :
      s.workers.get? i = some .idle →
      s.tasks = t :: rest →
      Step (.popStep i) s
        { s with
          tasks := rest
          popped := s.popped ++ [t]
          workers := s.workers.set i (.running t) }
  | finish {s : PoolState} {i t : Nat} (o : Outcome) :
      s.workers.get? i = some (.running t) →
      Step (.finishStep i o) s
        { s with
          taskCount := s.taskCount - 1
          finished := s.finished ++ [t]
          results := s.results ++ [(t, o)]
          workers := s.workers.set i .idle }
  | retire {s : PoolState} {i : Nat} :
      s.workers.get? i = some .idle →
      s.stop = true →
      s.tasks = [] →
      Step (.retireStep i) s { s with workers := s.workers.set i .retired }
  | enq {s : PoolState} :
      s.stop = false →
      Step .enqStep s (enqueue s).2
  | setStop {s : PoolState} :
      Step .stopStep s { s with stop := true }
  | drainReturn {s : PoolState} :
      drainPred s = true →
      Step .drainRet s s

/-- A finite execution: the sequence of labels taken from one state to
another. -/
inductive Trace : PoolState → List Label → PoolState → Prop
  | nil (s : PoolState) : Trace s [] s
  | cons {s s' s'' : PoolState} {l : Label} {ls : List Label} :
      Step l s s' → Trace s' ls s'' → Trace s (l :: ls) s''

/-- The unit of work a worker in the given phase is currently executing. -/
def statusTask : WStatus → Option Nat
  | .running t => some t
  | _ => none

/-- The ids currently being executed by some worker. -/
def runningIds (s : PoolState) : List Nat :=
  s.workers.filterMap statusTask

/-- Every worker thread has returned from its lambda (so the destructor's
joins all complete). -/
def allRetired (s : PoolState) : Prop :=
  ∀ w ∈ s.workers, w = WStatus.retired

/-- The inductive invariant of the transition system.  `popTasks` says the
dequeue history followed by the current queue is exactly the enqueue history;
`finRun` says the completed and in-flight units are exactly the dequeued
ones; `count` is the `task_count_` bookkeeping; `retiredDone` says worker
threads of a non-empty pool can only all have retired with the stop flag set
and the queue exhausted. -/
structure Inv (s : PoolState) : Prop where
  popTasks : s.popped ++ s.tasks = List.range s.nextId
  finRun : (s.finished ++ runningIds s).Perm s.popped
  count : s.taskCount + s.finished.length = s.nextId
  retiredDone : s.workers ≠ [] → allRetired s → s.stop = true ∧ s.tasks = []

/-! ## The `drain` / completion-wrapper condition-variable protocol

`drain` (source lines 187-192) locks `queue_mutex` and performs
`task_done_cond_.wait(lock, [this]{ return task_count_ == 0; })`.  The
completion wrapper (source lines 278-283) runs on a worker thread **without
holding `queue_mutex`**: it decrements `task_count_` and calls
`task_done_cond_.notify_one()`.

The protocol is modelled at the granularity C++ guarantees:

* a drain caller atomically (it holds the mutex) evaluates the predicate:
  if `task_count_ == 0` it returns, otherwise it enters the `window` phase —
  it has decided to block but is not yet in the condition variable's wait
  queue;
* a drain caller in the `window` phase blocks (`wait` releases the mutex and
  enqueues the thread atomically — but notifications arriving *before* this
  point, while the decision to block was already taken, are not delivered);
* a task completion decrements the counter and performs `notify_one`: it
  wakes exactly one *currently blocked* waiter if there is one, and is a
  no-op otherwise.  Because the wrapper does not take `queue_mutex`, this
  step may interleave with a drain caller sitting in its `window` phase.

A woken waiter re-evaluates the predicate, hence returns to `checking`. -/

/-- Phase of one `drain` caller. -/
inductive DPhase
  | checking
  | window
  | blocked
  | returned
deriving DecidableEq, Repr

/-- State of the drain protocol: the `task_count_` value and the phases of
the drain callers. -/
structure DrainState where
  count : Nat
  drainers : List DPhase
deriving DecidableEq, Repr

/-- Semantics of `notify_one`: wake the first blocked waiter, if any; otherwise the
notification is discarded. -/
def wakeOne : List DPhase → List DPhase
  | [] => []
  | .blocked :: ds => .checking :: ds
  | d :: ds => d :: wakeOne ds

/-- Atomic steps of the drain protocol. -/
inductive DStep : DrainState → DrainState → Prop
  | checkZero {s : DrainState} {i : Nat} :
      s.drainers.get? i = some .checking →
      s.count = 0 →
      DStep s { s with drainers := s.drainers.set i .returned }
  | checkPos {s : DrainState} {i : Nat} :
      s.drainers.get? i = some .checking →
      s.count ≠ 0 →
      DStep s { s with drainers := s.drainers.set i .window }
  | block {s : DrainState} {i : Nat} :
      s.drainers.get? i = some .window →
      DStep s { s with drainers := s.drainers.set i .blocked }
  | taskFinish {s : DrainState} :
      s.count ≠ 0 →
      DStep s { count := s.count - 1, drainers := wakeOne s.drainers }

/-- Whether any drain-protocol step is enabled: a task can still finish, or
some drain caller can still act on its own (a `blocked` caller cannot — only
a notification moves it, and notifications are only issued by `taskFinish`). -/
def canStepD (s : DrainState) : Bool :=
  decide (s.count ≠ 0) ||
    s.drainers.any fun d => decide (d = DPhase.checking) || decide (d = DPhase.window)

/-! ## Sample states used by witnesses -/

/-- A pool on which the destructor has already run `stop = true`. -/
def stoppedSample : PoolState :=
  { initState 1 [] (.tier .NORMAL) with stop := true }

/-- A complete run of a one-worker pool: enqueue one unit, bind the worker,
pop, execute, shut down, retire. -/
def sampleLabels : List Label :=
  [.enqStep, .bindStep 0, .popStep 0, .finishStep 0 (.value 9),
   .stopStep, .retireStep 0]

/-- The state `sampleLabels` ends in. -/
def sampleFinal : PoolState :=
  { affinity := []
    prioSpec := .tier .NORMAL
    stop := true
    tasks := []
    taskCount := 0
    nextId := 1
    popped := [0]
    finished := [0]
    results := [(0, .value 9)]
    bindLog := [(0, none, .tierSet .NORMAL)]
    workers := [.retired] }

/-- A complete run of a one-worker pool constructed with the out-of-range
raw priority `999`: the worker binds (emitting only the diagnostic), then
still executes one unit of work — whose callable raises a failure — and the
pool shuts down cleanly. -/
def rawSampleLabels : List Label :=
  [.bindStep 0, .enqStep, .popStep 0, .finishStep 0 (.failure "boom"),
   .stopStep, .retireStep 0]

/-- The state `rawSampleLabels` ends in. -/
def rawSampleFinal : PoolState :=
  { affinity := []
    prioSpec := .raw 999
    stop := true
    tasks := []
    taskCount := 0
    nextId := 1
    popped := [0]
    finished := [0]
    results := [(0, .failure "boom")]
    bindLog := [(0, none,
      .rawDiagnostic "Linux: Invalid priority value (range 1~99)")]
    workers := [.retired] }

/-! ## List helper lemmas -/

theorem get?_set_self {α : Type _} {l : List α} {i : Nat} {w : α}
    (h : l.get? i = some w) (v : α) : (l.set i v).get? i = some v := by
  induction l generalizing i with
  | nil => simp at h
  | cons a tl ih =>
    cases i with
    | zero => rfl
    | succ n => exact ih h

theorem get?_set_other {α : Type _} (l : List α) {i j : Nat} (hij : i ≠ j)
    (v : α) : (l.set i v).get? j = l.get? j := by
  induction l generalizing i j with
  | nil => simp
  | cons a tl ih =>
    cases i with
    | zero =>
      cases j with
      | zero => exact absurd rfl hij
      | succ m => rfl
    | succ n =>
      cases j with
      | zero => rfl
      | succ m => exact ih fun hnm => hij (congrArg Nat.succ hnm)

theorem mem_of_get?_eq_some {α : Type _} {l : List α} {i : Nat} {w : α}
    (h : l.get? i = some w) : w ∈ l := by
  induction l generalizing i with
  | nil => simp at h
  | cons a tl ih =>
    cases i with
    | zero =>
      injection h with h
      exact h ▸ List.mem_cons_self a tl
    | succ n => exact List.mem_cons_of_mem a (ih h)

theorem get?_replicate_lt {α : Type _} (a : α) {i n : Nat} (h : i < n) :
    (List.replicate n a).get? i = some a := by
  induction n generalizing i with
  | zero => exact absurd h (Nat.not_lt_zero i)
  | succ k ih =>
    cases i with
    | zero => rfl
    | succ m => exact ih (Nat.lt_of_succ_lt_succ h)

theorem filterMap_cons_toList {α β : Type _} (f : α → Option β) (a : α)
    (l : List α) :
    List.filterMap f (a :: l) = (f a).toList ++ List.filterMap f l := by
  cases h : f a <;> simp [List.filterMap_cons, h]

theorem perm_shuffle {α : Type _} (A T B : List α) :
    ((A ++ T) ++ B).Perm ((B ++ T) ++ A) := by
  have h1 : ((A ++ T) ++ B).Perm (B ++ (A ++ T)) := List.perm_append_comm
  have h2 : (A ++ T).Perm (T ++ A) := List.perm_append_comm
  exact h1.trans ((h2.append_left B).trans
    (List.append_assoc B T A ▸ List.Perm.refl _))

theorem filterMap_set_perm {α β : Type _} (f : α → Option β) {l : List α}
    {i : Nat} {w : α} (h : l.get? i = some w) (v : α) :
    ((l.set i v).filterMap f ++ (f w).toList).Perm
      (l.filterMap f ++ (f v).toList) := by
  induction l generalizing i with
  | nil => simp at h
  | cons a tl ih =>
    cases i with
    | zero =>
      injection h with h
      subst h
      rw [List.set_cons_zero, filterMap_cons_toList, filterMap_cons_toList]
      exact perm_shuffle _ _ _
    | succ n =>
      rw [List.set_cons_succ, filterMap_cons_toList, filterMap_cons_toList,
        List.append_assoc, List.append_assoc]
      exact (ih h).append_left (f a).toList

/-! ## Invariant preservation -/

theorem runningIds_set_none {s : PoolState} {i : Nat} {w : WStatus}
    (h : s.workers.get? i = some w) (v : WStatus)
    (hw : statusTask w = none) (hv : statusTask v = none) :
    ((s.workers.set i v).filterMap statusTask).Perm (runningIds s) := by
  have hp := filterMap_set_perm statusTask h v
  rw [hw, hv] at hp
  simpa [runningIds] using hp

theorem runningIds_set_some {s : PoolState} {i : Nat} {w : WStatus}
    (h : s.workers.get? i = some w) (v : WStatus) {t : Nat}
    (hw : statusTask w = none) (hv : statusTask v = some t) :
    ((s.workers.set i v).filterMap statusTask).Perm (runningIds s ++ [t]) := by
  have hp := filterMap_set_perm statusTask h v
  rw [hw, hv] at hp
  simpa [runningIds] using hp

theorem runningIds_set_del {s : PoolState} {i : Nat} {w : WStatus}
    (h : s.workers.get? i = some w) (v : WStatus) {t : Nat}
    (hw : statusTask w = some t) (hv : statusTask v = none) :
    ((s.workers.set i v).filterMap statusTask ++ [t]).Perm (runningIds s) := by
  have hp := filterMap_set_perm statusTask h v
  rw [hw, hv] at hp
  simpa [runningIds] using hp

theorem taskCount_pos {s : PoolState} (hI : Inv s) {i t : Nat}
    (h : s.workers.get? i = some (.running t)) : 1 ≤ s.taskCount := by
  have hmem : t ∈ runningIds s :=
    List.mem_filterMap.2 ⟨.running t, mem_of_get?_eq_some h, rfl⟩
  have hrun : 0 < (runningIds s).length :=
    List.length_pos.2 (List.ne_nil_of_mem hmem)
  have hfr := hI.finRun.length_eq
  have hpt := congrArg List.length hI.popTasks
  have hc := hI.count
  simp only [List.length_append, List.length_range] at hfr hpt
  omega

theorem inv_step {l : Label} {s s' : PoolState} (hs : Step l s s')
    (hI : Inv s) : Inv s' := by
  cases hs with
  | @bind s i h =>
      refine ⟨hI.popTasks, ?_, hI.count, ?_⟩
      · exact ((runningIds_set_none h .idle rfl rfl).append_left
          s.finished).trans hI.finRun
      · intro _ hall
        have := hall _ (mem_of_get?_eq_some (get?_set_self h WStatus.idle))
        exact WStatus.noConfusion this
  | @pop s i t rest h ht =>
      refine ⟨?_, ?_, hI.count, ?_⟩
      · show (s.popped ++ [t]) ++ rest = List.range s.nextId
        rw [List.append_assoc]
        show s.popped ++ (t :: rest) = List.range s.nextId
        rw [← ht]
        exact hI.popTasks
      · show (s.finished ++ (s.workers.set i (.running t)).filterMap statusTask).Perm
          (s.popped ++ [t])
        have hr := runningIds_set_some h (.running t) rfl rfl
        refine (hr.append_left s.finished).trans ?_
        rw [← List.append_assoc]
        exact hI.finRun.append_right [t]
      · intro _ hall
        have := hall _
          (mem_of_get?_eq_some (get?_set_self h (WStatus.running t)))
        exact WStatus.noConfusion this
  | @finish s i t o h =>
      refine ⟨hI.popTasks, ?_, ?_, ?_⟩
      · show ((s.finished ++ [t]) ++ (s.workers.set i .idle).filterMap statusTask).Perm
          s.popped
        have hr := runningIds_set_del h .idle rfl rfl
        rw [List.append_assoc]
        refine List.Perm.trans ?_ hI.finRun
        exact (List.perm_append_comm.trans hr).append_left s.finished
      · show s.taskCount - 1 + (s.finished ++ [t]).length = s.nextId
        have hpos := taskCount_pos hI h
        have hc := hI.count
        simp only [List.length_append, List.length_singleton]
        omega
      · intro _ hall
        have := hall _ (mem_of_get?_eq_some (get?_set_self h WStatus.idle))
        exact WStatus.noConfusion this
  | @retire s i h hstop htasks =>
      refine ⟨hI.popTasks, ?_, hI.count, ?_⟩
      · exact ((runningIds_set_none h .retired rfl rfl).append_left
          s.finished).trans hI.finRun
      · intro _ _
        exact ⟨hstop, htasks⟩
  | @enq s hstop =>
      simp only [enqueue, hstop, Bool.false_eq_true, if_false]
      refine ⟨?_, hI.finRun, ?_, ?_⟩
      · show s.popped ++ (s.tasks ++ [s.nextId]) = List.range (s.nextId + 1)
        rw [← List.append_assoc, hI.popTasks]
        exact (List.range_succ s.nextId).symm
      · show s.taskCount + 1 + s.finished.length = s.nextId + 1
        have := hI.count
        omega
      · intro hne hall
        have := (hI.retiredDone hne hall).1
        rw [hstop] at this
        exact Bool.noConfusion this
  | @setStop s =>
      refine ⟨hI.popTasks, hI.finRun, hI.count, ?_⟩
      intro hne hall
      exact ⟨rfl, (hI.retiredDone hne hall).2⟩
  | @drainReturn s h => exact hI

theorem inv_init (n : Nat) (aff : List Int) (spec : PrioSpec) :
    Inv (initState n aff spec) := by
  have hrun : (List.replicate n WStatus.start).filterMap statusTask = [] := by
    induction n with
    | zero => rfl
    | succ k ih => simp [List.replicate_succ, List.filterMap_cons, statusTask, ih]
  refine ⟨rfl, ?_, rfl, ?_⟩
  · show (([] : List Nat) ++ (List.replicate n WStatus.start).filterMap statusTask).Perm []
    simp [hrun]
  · intro hne hall
    cases n with
    | zero => exact absurd rfl hne
    | succ k =>
        have := hall _ (List.mem_replicate.2 ⟨Nat.succ_ne_zero k, rfl⟩)
        exact WStatus.noConfusion this

theorem inv_of_trace {s0 : PoolState} {ls : List Label} {s : PoolState}
    (htr : Trace s0 ls s) (h0 : Inv s0) : Inv s := by
  induction htr with
  | nil _ => exact h0
  | cons hstep _ ih => exact ih (inv_step hstep h0)

/-! ## Claim theorems -/

/-- Claim C2: Once the stop flag has been set, every call to `enqueue` fails
synchronously with the error `"enqueue on stopped ThreadPool"` before
anything is recorded: the resulting state is exactly the input state, so the
task queue and the outstanding-task counter are unchanged. -/
theorem enqueue_after_stop_fails_without_effect (s : PoolState)
    (h : s.stop = true) :
    (enqueue s).1 = Except.error "enqueue on stopped ThreadPool" ∧
    (enqueue s).2 = s := by
  simp [enqueue, h]

theorem enqueue_after_stop_fails_without_effect_witness :
    stoppedSample.stop = true ∧
    (enqueue stoppedSample).1 = Except.error "enqueue on stopped ThreadPool" ∧
    (enqueue stoppedSample).2 = stoppedSample :=
  ⟨rfl, enqueue_after_stop_fails_without_effect stoppedSample rfl⟩

/-- Claim C4: `drain` returns exactly when it observes `task_count_ == 0`:
the wait predicate at source line 191 holds iff the counter is zero, the
`drain`-return step is enabled (and leaves the state untouched) iff the
predicate holds, and on a freshly constructed pool — any thread count,
affinity list and priority — the counter is zero, so `drain` returns
immediately. -/
theorem drain_returns_iff_counter_zero :
    (∀ s : PoolState, drainPred s = true ↔ s.taskCount = 0) ∧
    (∀ s s' : PoolState, Step .drainRet s s' ↔ (s.taskCount = 0 ∧ s' = s)) ∧
    (∀ (n : Nat) (aff : List Int) (spec : PrioSpec),
      (initState n aff spec).taskCount = 0 ∧
      Step .drainRet (initState n aff spec) (initState n aff spec)) := by
  refine ⟨?_, ?_, ?_⟩
  · intro s
    simp [drainPred]
  · intro s s'
    constructor
    · intro h
      cases h with
      | drainReturn hp => exact ⟨by simpa [drainPred] using hp, rfl⟩
    · rintro ⟨h0, rfl⟩
      exact Step.drainReturn (by simp [drainPred, h0])
  · intro n aff spec
    exact ⟨rfl, Step.drainReturn rfl⟩

theorem drain_returns_iff_counter_zero_witness :
    (initState 4 [] (.tier .NORMAL)).taskCount = 0 ∧
    Step .drainRet (initState 4 [] (.tier .NORMAL))
      (initState 4 [] (.tier .NORMAL)) :=
  drain_returns_iff_counter_zero.2.2 4 [] (.tier .NORMAL)

/-- Claim C3: The counter `task_count_` always equals the number of units
enqueued minus the number whose execution has returned (first conjunct, over
every reachable state); each successful enqueue increments it by exactly one
(second conjunct); and each completion step decrements it by exactly one
while recording the unit's outcome — value or captured failure alike — into
the results channel instead of propagating it (third conjunct, for every
outcome `o`). -/
theorem counter_tracks_enqueues_and_finishes :
    (∀ (n : Nat) (aff : List Int) (spec : PrioSpec) (ls : List Label)
        (s : PoolState), Trace (initState n aff spec) ls s →
        s.taskCount + s.finished.length = s.nextId) ∧
    (∀ s : PoolState, s.stop = false →
        (enqueue s).2.taskCount = s.taskCount + 1 ∧
        (enqueue s).2.nextId = s.nextId + 1 ∧
        (enqueue s).2.finished = s.finished) ∧
    (∀ (n : Nat) (aff : List Int) (spec : PrioSpec) (ls : List Label)
        (s : PoolState) (i : Nat) (o : Outcome) (s' : PoolState),
        Trace (initState n aff spec) ls s → Step (.finishStep i o) s s' →
        ∃ t, s.workers.get? i = some (.running t) ∧
          s.taskCount = s'.taskCount + 1 ∧
          s'.finished = s.finished ++ [t] ∧
          s'.results = s.results ++ [(t, o)]) := by
  refine ⟨?_, ?_, ?_⟩
  · intro n aff spec ls s htr
    exact (inv_of_trace htr (inv_init n aff spec)).count
  · intro s h
    simp [enqueue, h]
  · intro n aff spec ls s i o s' htr hstep
    have hI := inv_of_trace htr (inv_init n aff spec)
    cases hstep with
    | @finish _ _ t _ h =>
        have hpos := taskCount_pos hI h
        refine ⟨t, h, ?_, rfl, rfl⟩
        show s.taskCount = s.taskCount - 1 + 1
        omega

/-- Claim C5: Units of work are dequeued in exactly the order they were
enqueued: in every reachable state the dequeue history is the initial
segment `0, 1, …, k-1` of the enqueue history, so whenever position `j₁` of
the dequeue history precedes position `j₂`, the unit dequeued at `j₁` was
enqueued before the unit dequeued at `j₂` — no reordering ever occurs. -/
theorem fifo_dequeue_order (n : Nat) (aff : List Int) (spec : PrioSpec)
    (ls : List Label) (s : PoolState)
    (htr : Trace (initState n aff spec) ls s) :
    s.popped = List.range s.popped.length ∧
    ∀ (j₁ j₂ x y : Nat), j₁ < j₂ →
      s.popped.get? j₁ = some x → s.popped.get? j₂ = some y → x < y := by
  have hI := inv_of_trace htr (inv_init n aff spec)
  have hpop : s.popped = List.range s.popped.length := by
    have h1 : (s.popped ++ s.tasks).take s.popped.length = s.popped :=
      List.take_left s.popped s.tasks
    have h2 : s.popped.length ≤ s.nextId := by
      have := congrArg List.length hI.popTasks
      simp only [List.length_append, List.length_range] at this
      omega
    rw [hI.popTasks, List.take_range, min_eq_left h2] at h1
    exact h1.symm
  refine ⟨hpop, ?_⟩
  intro j₁ j₂ x y hj h1 h2
  rw [hpop] at h1 h2
  have hx : x = j₁ := by
    have hlt := (List.get?_eq_some.1 h1).1
    simp only [List.length_range] at hlt
    rw [List.get?_eq_getElem?, List.getElem?_range hlt] at h1
    exact (Option.some_inj.1 h1).symm
  have hy : y = j₂ := by
    have hlt := (List.get?_eq_some.1 h2).1
    simp only [List.length_range] at hlt
    rw [List.get?_eq_getElem?, List.getElem?_range hlt] at h2
    exact (Option.some_inj.1 h2).symm
  rw [hx, hy]
  exact hj

/-- Claim C1: A worker retires from its loop only when the stop flag is set
and the task queue is empty (first conjunct); consequently, once every
worker of a non-empty pool has retired — which is exactly when the
destructor's joins all return — every unit of work ever enqueued has been
executed exactly once, and none was discarded (second conjunct). -/
theorem destructor_waits_for_all_enqueued_work :
    (∀ (i : Nat) (u u' : PoolState), Step (.retireStep i) u u' →
        u.stop = true ∧ u.tasks = []) ∧
    (∀ (n : Nat) (aff : List Int) (spec : PrioSpec) (ls : List Label)
        (s : PoolState), Trace (initState n aff spec) ls s →
        s.workers ≠ [] → allRetired s →
        s.finished.Perm (List.range s.nextId) ∧
        ∀ t, t < s.nextId → s.finished.count t = 1) := by
  constructor
  · intro i u u' hstep
    cases hstep with
    | retire _ hstop htasks => exact ⟨hstop, htasks⟩
  · intro n aff spec ls s htr hne hall
    have hI := inv_of_trace htr (inv_init n aff spec)
    have htasks : s.tasks = [] := (hI.retiredDone hne hall).2
    have hrun : runningIds s = [] := by
      refine List.filterMap_eq_nil_iff.2 ?_
      intro w hw
      rw [hall w hw]
      rfl
    have hpopped : s.popped = List.range s.nextId := by
      have := hI.popTasks
      rwa [htasks, List.append_nil] at this
    have hperm : s.finished.Perm (List.range s.nextId) := by
      have := hI.finRun
      rwa [hrun, List.append_nil, hpopped] at this
    refine ⟨hperm, ?_⟩
    intro t ht
    rw [hperm.count_eq]
    exact List.count_eq_one_of_mem (List.nodup_range s.nextId)
      (List.mem_range.2 ht)

/-! ## Worker startup ordering: binding happens once, before any unit of
work is executed -/

theorem start_status_preserved {l : Label} {s s' : PoolState} {i : Nat}
    (hs : Step l s s') (hl : l ≠ .bindStep i)
    (h : s.workers.get? i = some .start) :
    s'.workers.get? i = some .start := by
  cases hs with
  | @bind _ j hj =>
      by_cases hji : j = i
      · exact absurd (hji ▸ rfl) hl
      · show (s.workers.set j WStatus.idle).get? i = some .start
        rw [get?_set_other s.workers hji]
        exact h
  | @pop _ j t rest hj ht =>
      by_cases hji : j = i
      · subst hji
        rw [h] at hj
        injection hj with hj
        exact WStatus.noConfusion hj
      · show (s.workers.set j (WStatus.running t)).get? i = some .start
        rw [get?_set_other s.workers hji]
        exact h
  | @finish _ j t o hj =>
      by_cases hji : j = i
      · subst hji
        rw [h] at hj
        injection hj with hj
        exact WStatus.noConfusion hj
      · show (s.workers.set j WStatus.idle).get? i = some .start
        rw [get?_set_other s.workers hji]
        exact h
  | @retire _ j hj _ _ =>
      by_cases hji : j = i
      · subst hji
        rw [h] at hj
        injection hj with hj
        exact WStatus.noConfusion hj
      · show (s.workers.set j WStatus.retired).get? i = some .start
        rw [get?_set_other s.workers hji]
        exact h
  | enq hstop =>
      show (enqueue s).2.workers.get? i = some .start
      simpa [enqueue, hstop] using h
  | setStop => exact h
  | drainReturn _ => exact h

theorem nonstart_preserved {l : Label} {s s' : PoolState} {i : Nat}
    (hs : Step l s s')
    (h : s.workers.get? i ≠ some .start) :
    s'.workers.get? i ≠ some .start := by
  cases hs with
  | @bind _ j hj =>
      by_cases hji : j = i
      · subst hji
        exact absurd hj h
      · show (s.workers.set j WStatus.idle).get? i ≠ some .start
        rw [get?_set_other s.workers hji]
        exact h
  | @pop _ j t rest hj ht =>
      by_cases hji : j = i
      · subst hji
        rw [get?_set_self hj]
        simp
      · show (s.workers.set j (WStatus.running t)).get? i ≠ some .start
        rw [get?_set_other s.workers hji]
        exact h
  | @finish _ j t o hj =>
      by_cases hji : j = i
      · subst hji
        rw [get?_set_self hj]
        simp
      · show (s.workers.set j WStatus.idle).get? i ≠ some .start
        rw [get?_set_other s.workers hji]
        exact h
  | @retire _ j hj _ _ =>
      by_cases hji : j = i
      · subst hji
        rw [get?_set_self hj]
        simp
      · show (s.workers.set j WStatus.retired).get? i ≠ some .start
        rw [get?_set_other s.workers hji]
        exact h
  | enq hstop =>
      show (enqueue s).2.workers.get? i ≠ some .start
      simpa [enqueue, hstop] using h
  | setStop => exact h
  | drainReturn _ => exact h

theorem no_bind_from_nonstart {i : Nat} :
    ∀ {s : PoolState} {ls : List Label} {s' : PoolState}, Trace s ls s' →
      s.workers.get? i ≠ some .start →
      ls.count (Label.bindStep i) = 0 := by
  intro s ls s' htr
  induction htr with
  | nil _ => intro _; rfl
  | @cons s s₁ s₂ l ls₁ hstep tr ih =>
      intro h
      by_cases hl : l = Label.bindStep i
      · subst hl
        cases hstep with
        | bind hj => exact absurd hj h
      · have h' := nonstart_preserved hstep h
        simp [List.count_cons, ih h', hl]

theorem bind_at_most_once {i : Nat} :
    ∀ {s : PoolState} {ls : List Label} {s' : PoolState}, Trace s ls s' →
      ls.count (Label.bindStep i) ≤ 1 := by
  intro s ls s' htr
  induction htr with
  | nil _ => exact Nat.zero_le 1
  | @cons s s₁ s₂ l ls₁ hstep tr ih =>
      by_cases hl : l = Label.bindStep i
      · subst hl
        have hzero : ls₁.count (Label.bindStep i) = 0 := by
          cases hstep with
          | bind hj =>
              refine no_bind_from_nonstart tr ?_
              rw [get?_set_self hj]
              simp
        simp [List.count_cons, hzero]
      · simp [List.count_cons, hl]
        omega

theorem bind_before_first_pop {i : Nat} :
    ∀ {s : PoolState} {ls : List Label} {s' : PoolState}, Trace s ls s' →
      s.workers.get? i = some .start →
      ∀ pre post, ls = pre ++ Label.popStep i :: post →
        Label.bindStep i ∈ pre := by
  intro s ls s' htr
  induction htr with
  | nil _ =>
      intro _ pre post heq
      exact absurd heq (by simp)
  | @cons s s₁ s₂ l ls₁ hstep tr ih =>
      intro h pre post heq
      cases pre with
      | nil =>
          simp only [List.nil_append] at heq
          injection heq with heq1 heq2
          subst heq1
          cases hstep with
          | pop hj ht =>
              rw [h] at hj
              injection hj with hj
              exact WStatus.noConfusion hj
      | cons p pre' =>
          simp only [List.cons_append] at heq
          injection heq with heq1 heq2
          subst heq1
          by_cases hl : l = Label.bindStep i
          · subst hl
            exact List.mem_cons_self _ _
          · have h' := start_status_preserved hstep hl h
            exact List.mem_cons_of_mem _ (ih h' pre' post heq2)

/-! ## Concrete executions used by the witnesses -/

theorem sample_trace :
    Trace (initState 1 [] (.tier .NORMAL)) sampleLabels sampleFinal := by
  refine Trace.cons (Step.enq rfl) ?_
  refine Trace.cons (Step.bind rfl) ?_
  refine Trace.cons (Step.pop rfl rfl) ?_
  refine Trace.cons (Step.finish (.value 9) rfl) ?_
  refine Trace.cons Step.setStop ?_
  refine Trace.cons (Step.retire rfl rfl rfl) ?_
  exact Trace.nil sampleFinal

theorem raw_sample_trace :
    Trace (initState 1 [] (.raw 999)) rawSampleLabels rawSampleFinal := by
  refine Trace.cons (Step.bind rfl) ?_
  refine Trace.cons (Step.enq rfl) ?_
  refine Trace.cons (Step.pop rfl rfl) ?_
  refine Trace.cons (Step.finish (.failure "boom") rfl) ?_
  refine Trace.cons Step.setStop ?_
  refine Trace.cons (Step.retire rfl rfl rfl) ?_
  exact Trace.nil rawSampleFinal

theorem destructor_waits_for_all_enqueued_work_witness :
    Trace (initState 1 [] (.tier .NORMAL)) sampleLabels sampleFinal ∧
    sampleFinal.workers ≠ [] ∧ allRetired sampleFinal ∧
    (sampleFinal.finished.Perm (List.range sampleFinal.nextId) ∧
      ∀ t, t < sampleFinal.nextId → sampleFinal.finished.count t = 1) :=
  ⟨sample_trace, by decide,
    fun w hw => by simpa [sampleFinal] using hw,
    destructor_waits_for_all_enqueued_work.2 1 [] (.tier .NORMAL)
      sampleLabels sampleFinal sample_trace (by decide)
      (fun w hw => by simpa [sampleFinal] using hw)⟩

theorem enqueue_increments_counter_witness :
    Trace (initState 1 [] (.tier .NORMAL)) sampleLabels sampleFinal ∧
    sampleFinal.taskCount + sampleFinal.finished.length = sampleFinal.nextId ∧
    (stoppedSample.stop = false → False) ∧
    (enqueue (initState 1 [] (.tier .NORMAL))).2.taskCount =
      (initState 1 [] (.tier .NORMAL)).taskCount + 1 :=
  ⟨sample_trace,
    counter_tracks_enqueues_and_finishes.1 1 [] (.tier .NORMAL)
      sampleLabels sampleFinal sample_trace,
    fun h => by simp [stoppedSample, initState] at h,
    (counter_tracks_enqueues_and_finishes.2.1
      (initState 1 [] (.tier .NORMAL)) rfl).1⟩

theorem fifo_dequeue_order_witness :
    Trace (initState 1 [] (.tier .NORMAL)) sampleLabels sampleFinal ∧
    sampleFinal.popped = List.range sampleFinal.popped.length :=
  ⟨sample_trace,
    (fifo_dequeue_order 1 [] (.tier .NORMAL) sampleLabels sampleFinal
      sample_trace).1⟩

/-- Claim C6: Worker affinity binding: with a non-empty affinity list the
worker of index `i` binds to core `affinity_list[i mod length]` (first two
conjuncts: the value, and that the round-robin index is in bounds); with an
empty list no affinity call is made (third conjunct); each `bindStep`
records exactly that call (fourth conjunct); and along every execution of a
pool each worker binds at most once, and always before it picks up its
first unit of work (last conjunct). -/
theorem worker_affinity_round_robin :
    (∀ (aff : List Int) (i : Nat), aff ≠ [] →
        workerAffinityCore aff i = some (aff.getD (i % aff.length) 0) ∧
        i % aff.length < aff.length) ∧
    (∀ i : Nat, workerAffinityCore [] i = none) ∧
    (∀ (i : Nat) (u u' : PoolState), Step (.bindStep i) u u' →
        u'.bindLog = u.bindLog ++
          [(i, workerAffinityCore u.affinity i, prioEffect u.prioSpec)]) ∧
    (∀ (n : Nat) (aff : List Int) (spec : PrioSpec) (ls : List Label)
        (s : PoolState) (i : Nat), i < n →
        Trace (initState n aff spec) ls s →
        ls.count (Label.bindStep i) ≤ 1 ∧
        ∀ pre post, ls = pre ++ Label.popStep i :: post →
          Label.bindStep i ∈ pre) := by
  refine ⟨?_, ?_, ?_, ?_⟩
  · intro aff i hne
    cases aff with
    | nil => exact absurd rfl hne
    | cons a tl =>
        refine ⟨rfl, ?_⟩
        exact Nat.mod_lt i (Nat.succ_pos tl.length)
  · intro i
    rfl
  · intro i u u' hstep
    cases hstep with
    | bind hj => rfl
  · intro n aff spec ls s i hin htr
    have hstart : (initState n aff spec).workers.get? i = some .start :=
      get?_replicate_lt WStatus.start hin
    exact ⟨bind_at_most_once htr,
      fun pre post heq => bind_before_first_pop htr hstart pre post heq⟩

theorem worker_affinity_round_robin_witness :
    workerAffinityCore [3, 5, 7] 4 = some 5 ∧
    workerAffinityCore [] 2 = none ∧
    Trace (initState 1 [] (.tier .NORMAL)) sampleLabels sampleFinal ∧
    sampleLabels.count (Label.bindStep 0) ≤ 1 ∧
    Label.bindStep 0 ∈ [Label.enqStep, Label.bindStep 0] := by
  have h4 := worker_affinity_round_robin.2.2.2 1 [] (.tier .NORMAL)
    sampleLabels sampleFinal 0 (by decide) sample_trace
  refine ⟨?_, worker_affinity_round_robin.2.1 2, sample_trace, h4.1, ?_⟩
  · have h1 := (worker_affinity_round_robin.1 [3, 5, 7] 4 (by decide)).1
    simpa using h1
  · exact h4.2 [Label.enqStep, Label.bindStep 0]
      [Label.finishStep 0 (.value 9), Label.stopStep, Label.retireStep 0] rfl

/-- Claim C7: Raw-numeric priority: a value inside the platform's fixed
inclusive range (`1..99` on Linux, `-2..15` on Windows) is applied to the
thread; a value outside only produces the diagnostic message and leaves the
thread at default scheduling.  The last conjunct shows that an out-of-range
value (`999` on Linux) neither prevents pool construction nor the execution
of submitted work: the pool still runs a unit to completion and shuts down,
with only the diagnostic recorded at worker startup. -/
theorem raw_priority_validation :
    (∀ v : Int, 1 ≤ v → v ≤ 99 →
        set_thread_priority_num_linux v = .applied SCHED_RR v) ∧
    (∀ v : Int, ¬(1 ≤ v ∧ v ≤ 99) →
        set_thread_priority_num_linux v =
          .diagnostic "Linux: Invalid priority value (range 1~99)") ∧
    (∀ v : Int, -2 ≤ v → v ≤ 15 →
        set_thread_priority_num_win v = .applied v) ∧
    (∀ v : Int, ¬(-2 ≤ v ∧ v ≤ 15) →
        set_thread_priority_num_win v =
          .diagnostic "Windows: Invalid priority value (range -2~15)") ∧
    (Trace (initState 1 [] (.raw 999)) rawSampleLabels rawSampleFinal ∧
      rawSampleFinal.bindLog =
        [(0, none,
          .rawDiagnostic "Linux: Invalid priority value (range 1~99)")] ∧
      rawSampleFinal.finished = [0] ∧
      allRetired rawSampleFinal) := by
  refine ⟨?_, ?_, ?_, ?_, raw_sample_trace, rfl, rfl, ?_⟩
  · intro v h1 h2
    simp [set_thread_priority_num_linux, h1, h2]
  · intro v h
    simp only [set_thread_priority_num_linux, if_neg h]
  · intro v h1 h2
    simp [set_thread_priority_num_win, h1, h2]
  · intro v h
    simp only [set_thread_priority_num_win, if_neg h]
  · intro w hw
    simpa [rawSampleFinal] using hw

theorem raw_priority_validation_witness :
    set_thread_priority_num_linux 50 = .applied SCHED_RR 50 ∧
    set_thread_priority_num_linux 999 =
      .diagnostic "Linux: Invalid priority value (range 1~99)" ∧
    set_thread_priority_num_win 10 = .applied 10 ∧
    set_thread_priority_num_win 99 =
      .diagnostic "Windows: Invalid priority value (range -2~15)" :=
  ⟨raw_priority_validation.1 50 (by decide) (by decide),
    raw_priority_validation.2.1 999 (by decide),
    raw_priority_validation.2.2.1 10 (by decide) (by decide),
    raw_priority_validation.2.2.2.1 99 (by decide)⟩

/-- Claim C8: The ordinal-tier setter is the fixed map the claim states: on
Linux (for a thread whose current policy is the default `SCHED_OTHER`) LOW
keeps the current policy at `sched_get_priority_min(SCHED_OTHER)`, NORMAL
leaves the parameters untouched, HIGH switches to `SCHED_RR` at the midpoint
of its range, REALTIME switches to `SCHED_FIFO` at its maximum — and exactly
the tiers above NORMAL land in a real-time class; on Windows the four tiers
map to BELOW_NORMAL, NORMAL, ABOVE_NORMAL and TIME_CRITICAL. -/
theorem tier_priority_mapping (prioMin prioMax : Nat → Int)
    (cur : SchedParam) (hcur : cur.policy = SCHED_OTHER) :
    set_thread_priority_linux prioMin prioMax cur .LOW =
      { policy := cur.policy, sched_priority := prioMin SCHED_OTHER } ∧
    set_thread_priority_linux prioMin prioMax cur .NORMAL = cur ∧
    set_thread_priority_linux prioMin prioMax cur .HIGH =
      { policy := SCHED_RR,
        sched_priority := (prioMin SCHED_RR + prioMax SCHED_RR) / 2 } ∧
    set_thread_priority_linux prioMin prioMax cur .REALTIME =
      { policy := SCHED_FIFO, sched_priority := prioMax SCHED_FIFO } ∧
    (∀ p : Priority,
      isRealtimeClass
          (set_thread_priority_linux prioMin prioMax cur p).policy = true ↔
        (p = .HIGH ∨ p = .REALTIME)) ∧
    set_thread_priority_win .LOW = THREAD_PRIORITY_BELOW_NORMAL ∧
    set_thread_priority_win .NORMAL = THREAD_PRIORITY_NORMAL ∧
    set_thread_priority_win .HIGH = THREAD_PRIORITY_ABOVE_NORMAL ∧
    set_thread_priority_win .REALTIME = THREAD_PRIORITY_TIME_CRITICAL := by
  refine ⟨rfl, rfl, rfl, rfl, ?_, rfl, rfl, rfl, rfl⟩
  intro p
  cases p <;>
    simp [set_thread_priority_linux, isRealtimeClass, hcur,
      SCHED_OTHER, SCHED_RR, SCHED_FIFO]

theorem tier_priority_mapping_witness :
    set_thread_priority_linux (fun _ => 1)
        (fun pol => if pol = SCHED_FIFO then 99 else 99) ⟨SCHED_OTHER, 0⟩
        .HIGH =
      { policy := SCHED_RR, sched_priority := 50 } ∧
    set_thread_priority_linux (fun _ => 1) (fun _ => 99) ⟨SCHED_OTHER, 0⟩
        .REALTIME =
      { policy := SCHED_FIFO, sched_priority := 99 } ∧
    isRealtimeClass
        (set_thread_priority_linux (fun _ => 1) (fun _ => 99)
          ⟨SCHED_OTHER, 0⟩ .LOW).policy = false := by
  have h := tier_priority_mapping (fun _ => 1) (fun _ => 99)
    ⟨SCHED_OTHER, 0⟩ rfl
  refine ⟨?_, h.2.2.2.1, ?_⟩
  · have := h.2.2.1
    simpa using this
  · have hiff := (h.2.2.2.2.1 .LOW)
    simp only [Bool.not_eq_true] at hiff ⊢
    cases hisr :
        isRealtimeClass
          (set_thread_priority_linux (fun _ => 1) (fun _ => 99)
            ⟨SCHED_OTHER, 0⟩ .LOW).policy with
    | false => rfl
    | true =>
        rcases hiff.1 hisr with h1 | h1 <;> exact Priority.noConfusion h1

/-! ## C9: the completion notification can be lost

Helper fact connecting `canStepD` to the step relation: a state on which
`canStepD` is `false` is terminal — in particular a `blocked` drain caller in
it can never be woken, because the only wake-up source (`taskFinish`, the
completion wrapper's `notify_one`) requires an unfinished task. -/

theorem no_dstep_of_canStepD_false {s : DrainState}
    (h : canStepD s = false) : ∀ s', ¬ DStep s s' := by
  intro s' hstep
  simp only [canStepD, Bool.or_eq_false_iff, decide_eq_false_iff_not,
    Decidable.not_not, List.any_eq_false] at h
  obtain ⟨hcount, hphase⟩ := h
  cases hstep with
  | @checkZero i hi _ =>
      have := hphase _ (mem_of_get?_eq_some hi)
      simp at this
  | @checkPos i hi hc =>
      have := hphase _ (mem_of_get?_eq_some hi)
      simp at this
  | @block i hi =>
      have := hphase _ (mem_of_get?_eq_some hi)
      simp at this
  | taskFinish hc => exact hc hcount

theorem no_dstep_of_canStepD_false_witness :
    canStepD ⟨0, [DPhase.returned]⟩ = false ∧
    ¬ DStep ⟨0, [DPhase.returned]⟩ ⟨0, [DPhase.returned]⟩ :=
  ⟨by decide, no_dstep_of_canStepD_false (by decide) _⟩

/-- Claim C9 fails on the code: because the completion wrapper performs
`task_count_--; task_done_cond_.notify_one();` without holding
`queue_mutex`, the decrement-and-notify can fire in the window between a
drain caller's predicate check and its block, and the notification is
discarded (first scenario: after three steps the caller is `blocked`, the
counter is zero, and `canStepD` — hence every `DStep`, by
`no_dstep_of_canStepD_false` — is off: the caller sleeps forever).
Moreover `notify_one` wakes at most one of several blocked drain callers
(second scenario: the last completion wakes only the first of two blocked
callers; after it returns, the protocol is again terminal with the second
caller still `blocked`). -/
theorem drain_lost_wakeup :
    DStep ⟨1, [DPhase.checking]⟩ ⟨1, [DPhase.window]⟩ ∧
    DStep ⟨1, [DPhase.window]⟩ ⟨0, [DPhase.window]⟩ ∧
    DStep ⟨0, [DPhase.window]⟩ ⟨0, [DPhase.blocked]⟩ ∧
    (⟨0, [DPhase.blocked]⟩ : DrainState).count = 0 ∧
    canStepD ⟨0, [DPhase.blocked]⟩ = false ∧
    wakeOne [DPhase.blocked, DPhase.blocked] =
      [DPhase.checking, DPhase.blocked] ∧
    DStep ⟨1, [DPhase.blocked, DPhase.blocked]⟩
      ⟨0, [DPhase.checking, DPhase.blocked]⟩ ∧
    DStep ⟨0, [DPhase.checking, DPhase.blocked]⟩
      ⟨0, [DPhase.returned, DPhase.blocked]⟩ ∧
    canStepD ⟨0, [DPhase.returned, DPhase.blocked]⟩ = false := by
  refine ⟨?_, ?_, ?_, rfl, by decide, rfl, ?_, ?_, by decide⟩
  · exact @DStep.checkPos ⟨1, [DPhase.checking]⟩ 0 rfl (by decide)
  · exact DStep.taskFinish (by decide)
  · exact @DStep.block ⟨0, [DPhase.window]⟩ 0 rfl
  · exact DStep.taskFinish (by decide)
  · exact @DStep.checkZero ⟨0, [DPhase.checking, DPhase.blocked]⟩ 0 rfl rfl

/-! ## C10: a pool constructed with zero threads -/

theorem no_worker_step {l : Label} {s s' : PoolState} (hs : Step l s s')
    (h : s.workers = [] ∧ 1 ≤ s.taskCount ∧ s.finished = [] ∧
      s.popped = []) :
    s'.workers = [] ∧ 1 ≤ s'.taskCount ∧ s'.finished = [] ∧
      s'.popped = [] := by
  obtain ⟨hw, hc, hf, hp⟩ := h
  cases hs with
  | @bind s i hj => rw [hw] at hj; simp at hj
  | @pop s i t rest hj ht => rw [hw] at hj; simp at hj
  | @finish s i t o hj => rw [hw] at hj; simp at hj
  | @retire s i hj _ _ => rw [hw] at hj; simp at hj
  | @enq s hstop =>
      refine ⟨?_, ?_, ?_, ?_⟩ <;> simp [enqueue, hstop, hw, hf, hp]
  | setStop => exact ⟨hw, hc, hf, hp⟩
  | drainReturn _ => exact ⟨hw, hc, hf, hp⟩

theorem no_worker_trace {s0 : PoolState} {ls : List Label} {s : PoolState}
    (htr : Trace s0 ls s)
    (h0 : s0.workers = [] ∧ 1 ≤ s0.taskCount ∧ s0.finished = [] ∧
      s0.popped = []) :
    s.workers = [] ∧ 1 ≤ s.taskCount ∧ s.finished = [] ∧ s.popped = [] := by
  induction htr with
  | nil _ => exact h0
  | cons hstep _ ih => exact ih (no_worker_step hstep h0)

/-- Claim C10: A pool constructed with `thread_count = 0`: construction
succeeds with no workers; the destructor still runs (it sets the stop flag
and joins the empty worker list — trivially "all retired"); `enqueue` still
accepts work, queuing id `0` and raising the counter to `1`; but from then
on, along every possible execution, no unit is ever popped or finished, the
counter stays at least `1`, the `drain` wait predicate is never true, and
the `drain`-return step is never enabled — `drain()` never returns. -/
theorem zero_thread_pool_behavior (aff : List Int) (spec : PrioSpec) :
    (initState 0 aff spec).workers = [] ∧
    Step .stopStep (initState 0 aff spec)
      { initState 0 aff spec with stop := true } ∧
    allRetired { initState 0 aff spec with stop := true } ∧
    (enqueue (initState 0 aff spec)).1 = .ok () ∧
    (enqueue (initState 0 aff spec)).2.tasks = [0] ∧
    (enqueue (initState 0 aff spec)).2.taskCount = 1 ∧
    ∀ (ls : List Label) (s : PoolState),
      Trace (enqueue (initState 0 aff spec)).2 ls s →
      1 ≤ s.taskCount ∧ s.finished = [] ∧ s.popped = [] ∧
      drainPred s = false ∧ ∀ s', ¬ Step .drainRet s s' := by
  refine ⟨rfl, Step.setStop, ?_, rfl, rfl, rfl, ?_⟩
  · intro w hw
    simp [initState] at hw
  · intro ls s htr
    have h := no_worker_trace htr ⟨rfl, Nat.le_refl 1, rfl, rfl⟩
    have hpred : drainPred s = false := by
      simp only [drainPred, beq_eq_false_iff_ne, ne_eq]
      omega
    refine ⟨h.2.1, h.2.2.1, h.2.2.2, hpred, ?_⟩
    intro s' hstep
    cases hstep with
    | drainReturn hp => rw [hpred] at hp; exact Bool.noConfusion hp

theorem zero_thread_pool_behavior_witness :
    (initState 0 [] (.tier .NORMAL)).workers = [] ∧
    (enqueue (initState 0 [] (.tier .NORMAL))).1 = .ok () ∧
    (enqueue (initState 0 [] (.tier .NORMAL))).2.taskCount = 1 ∧
    1 ≤ (enqueue (initState 0 [] (.tier .NORMAL))).2.taskCount ∧
    drainPred (enqueue (initState 0 [] (.tier .NORMAL))).2 = false := by
  have h := zero_thread_pool_behavior [] (.tier .NORMAL)
  have h7 := h.2.2.2.2.2.2 [] (enqueue (initState 0 [] (.tier .NORMAL))).2
    (Trace.nil _)
  exact ⟨h.1, h.2.2.2.1, h.2.2.2.2.2.1, h7.1, h7.2.2.2.1⟩

end ThreadPoolModel
